import Mathlib

/-!
Shallow embedding of the ASCII-map path-walking library (src/index.ts and
src/utils.ts of the repository) together with theorems settling the frozen
claims about its specification.

Grid cells are strings (the source stores each cell as a JavaScript string;
cells may be empty, and rows may be ragged).  Positions and directions are
pairs of integers, exactly as in the source's `Position`/`Direction` types.
Machine-level JavaScript numbers are modelled by `Int` (all arithmetic in the
source is tiny additions of -1/0/1, far from any floating point rounding).

Exceptions thrown by the source are modelled by `Except`/an explicit outcome
type; the unbounded `while (true)` loop is modelled with explicit fuel, with
a distinguished `timeout` outcome meaning the fuel ran out while the source
loop would still be running.
-/

namespace AsciiMap

/-- A position in the grid: `{ row, col }` in the source (`types.ts`). -/
structure Position where
  row : Int
  col : Int
deriving DecidableEq, Repr

/-- A direction of movement: `{ row, col }` in the source (`types.ts`). -/
structure Direction where
  row : Int
  col : Int
deriving DecidableEq, Repr

/-- A grid: ordered rows of single-character cell strings (`string[][]`). -/
abbrev Grid := List (List String)

/-- Modelled from the spec: the repository's `enums.ts` (the `KEY_CHARACTERS`
constants) is not present under `src/`; per the spec the marker and
path-drawing characters are the fixed literals `@`, `x`, `-`, `|`, `+`
(confirmed by the literal strings asserted in `src/tests/index.test.ts`). -/
def STARTING_CHAR : String := "@"

/-- Modelled from the spec: the end marker literal (`KEY_CHARACTERS.ENDING_CHAR`). -/
def ENDING_CHAR : String := "x"

/-- Modelled from the spec: horizontal segment literal (`KEY_CHARACTERS.MINUS_CHAR`). -/
def MINUS_CHAR : String := "-"

/-- Modelled from the spec: vertical segment literal (`KEY_CHARACTERS.VERTICAL_CHAR`). -/
def VERTICAL_CHAR : String := "|"

/-- Modelled from the spec: turn literal (`KEY_CHARACTERS.CHANGE_DIRECTION_CHAR`). -/
def CHANGE_DIRECTION_CHAR : String := "+"

/-- `DIRECTIONS` from `utils.ts`: up, down, left, right, in source order. -/
def DIRECTIONS : List Direction :=
  [⟨-1, 0⟩, ⟨1, 0⟩, ⟨0, -1⟩, ⟨0, 1⟩]

/-- `move` from `utils.ts`: pure vector addition, no bounds checking. -/
def move (position : Position) (direction : Direction) : Position :=
  ⟨position.row + direction.row, position.col + direction.col⟩

/-- `isWithinBounds` from `utils.ts`:
`row >= 0 && row < grid.length && col >= 0 && col < grid[row].length`. -/
def isWithinBounds (grid : Grid) (position : Position) : Bool :=
  0 ≤ position.row && position.row < (grid.length : Int) &&
  0 ≤ position.col &&
  position.col < ((grid.getD position.row.toNat []).length : Int)

/-- Optional cell lookup: `grid[row][col]`, `none` when the indices fall
outside the grid (where the JavaScript expression would be `undefined`). -/
def cellAt (grid : Grid) (position : Position) : Option String :=
  if 0 ≤ position.row ∧ 0 ≤ position.col then
    (grid.get? position.row.toNat).bind fun r => r.get? position.col.toNat
  else none

/-- Total cell lookup with `""` (impassable) for absent cells; used only
under an `isWithinBounds` guard, where it agrees with `cellAt`. -/
def cellD (grid : Grid) (position : Position) : String :=
  (cellAt grid position).getD ""

/-- `isPathCharacter` from `utils.ts`: `-`, `|` or `+`. -/
def isPathCharacter (char : String) : Bool :=
  char = MINUS_CHAR || char = VERTICAL_CHAR || char = CHANGE_DIRECTION_CHAR

/-- The regex test `/[A-Z]/.test(s)`: some character of `s` is an uppercase
Latin letter (JavaScript regexes search anywhere in the string). -/
def testUpper (s : String) : Bool :=
  s.data.any fun c => 'A' ≤ c && c ≤ 'Z'

/-- The regex test `/[A-Zx]/.test(s)`: some character of `s` is an uppercase
Latin letter or the letter `x`. -/
def testUpperOrEnd (s : String) : Bool :=
  s.data.any fun c => ('A' ≤ c && c ≤ 'Z') || c = 'x'

/-- The walkability test used throughout the source:
`isPathCharacter(c) || /[A-Zx]/.test(c)`. -/
def isWalkableCell (s : String) : Bool :=
  isPathCharacter s || testUpperOrEnd s

/-- Row scan for `findPosition`: first column index holding `char`. -/
def findPositionRow (row : List String) (char : String) : Option Nat :=
  match row with
  | [] => none
  | c :: cs =>
    if c = char then some 0 else (findPositionRow cs char).map (· + 1)

/-- Helper for `findPosition`: scan rows from row index `r` downward. -/
def findPositionFrom (grid : List (List String)) (char : String) (r : Nat) :
    Option Position :=
  match grid with
  | [] => none
  | row :: rest =>
    match findPositionRow row char with
    | some c => some ⟨r, c⟩
    | none => findPositionFrom rest char (r + 1)

/-- `findPosition` from `utils.ts`: first cell equal to `char`, scanning rows
top-to-bottom and columns left-to-right, or `none`. -/
def findPosition (grid : Grid) (char : String) : Option Position :=
  findPositionFrom grid char 0

/-- Row scan for `hasMultipleOccurrences`; `seen` records whether the target
has been seen already, and the first component short-circuits to `true` on a
second match (the source's `Set`-based check is exactly this flag). -/
def hasMultipleRow (target : String) : List String → Bool → Bool × Bool
  | [], seen => (false, seen)
  | c :: cs, seen =>
    if c = target then
      if seen then (true, seen) else hasMultipleRow target cs true
    else hasMultipleRow target cs seen

/-- Grid scan for `hasMultipleOccurrences`. -/
def hasMultipleGrid (target : String) : List (List String) → Bool → Bool
  | [], _ => false
  | row :: rows, seen =>
    match hasMultipleRow target row seen with
    | (true, _) => true
    | (false, seen') => hasMultipleGrid target rows seen'

/-- `hasMultipleOccurrences` from `utils.ts`: `target` occurs in two or more
cells of the grid. -/
def hasMultipleOccurrences (grid : Grid) (target : String) : Bool :=
  hasMultipleGrid target grid false

/-- `isLocationAlreadyUsed` from `utils.ts`:
`location.some(v => v.col === p.col && v.row === p.row)`. -/
def isLocationAlreadyUsed (location : List Position) (currentPosition : Position) :
    Bool :=
  location.any fun v => v.col = currentPosition.col && v.row = currentPosition.row

/-- `filterDirections` from `utils.ts`: if moving horizontally
(`currentDirection.row === 0`) keep the directions with `row !== 0`,
otherwise keep the directions with `row === 0`. -/
def filterDirections (currentDirection : Direction) : List Direction :=
  DIRECTIONS.filter fun direction =>
    if currentDirection.row = 0 then direction.row ≠ 0 else direction.row = 0

/-- The "opposite" of a direction (negate both components); the source spells
this inline as `dir.row !== -currentDirection.row || dir.col !== -currentDirection.col`. -/
def oppositeOf (direction : Direction) : Direction :=
  ⟨-direction.row, -direction.col⟩

/-- The fixed validation errors thrown by the source (§6 of the spec). -/
inductive WalkError
  | startEnd
  | startingPath
  | invalidStart
  | multipleDirs
  | broken
deriving DecidableEq, Repr

/-- The exact message text each thrown error carries in the source. -/
def errorMessage : WalkError → String
  | .startEnd => "The map must contain exactly one start \x27@\x27 and one end \x27x\x27."
  | .startingPath => "The map must contain exactly one starting path."
  | .invalidStart => "Invalid starting position or map."
  | .multipleDirs => "The map must have only one valid direction."
  | .broken => "Path is broken or invalid."

/-- A failure of an intermediate step: either a thrown `WalkError`, or an
out-of-bounds unguarded grid read (`grid[row][col]` evaluating to
`undefined` in JavaScript) — the latter is proved unreachable (C10). -/
inductive Failure
  | raised (e : WalkError)
  | absentRead
deriving DecidableEq, Repr

/-- An unguarded read of `grid[position.row][position.col]`: the source does
not bounds-check these reads, so an absent cell surfaces as `absentRead`. -/
def readCell (grid : Grid) (position : Position) : Except Failure String :=
  match cellAt grid position with
  | some c => .ok c
  | none => .error .absentRead

/-- The count of valid perpendicular directions computed inside
`haveOneValidDirection` (`utils.ts`): for each direction of
`filterDirections(currentDirection)`, count it if the stepped-to position is
within bounds and its cell is walkable.  All reads here are guarded by
`isWithinBounds`, under which `cellD` agrees with the actual cell. -/
def countValidTurnDirections (grid : Grid) (position : Position)
    (currentDirection : Direction) : Nat :=
  (filterDirections currentDirection).foldl
    (fun n direction =>
      let newPosition := move position direction
      if isWithinBounds grid newPosition then
        if isWalkableCell (cellD grid newPosition) then n + 1 else n
      else n)
    0

/-- `haveOneValidDirection` from `utils.ts`: `false` when the current cell is
not `+`; otherwise count the valid perpendicular directions and throw
`"The map must have only one valid direction."` when more than one is found,
returning `true` otherwise (also when zero are found). -/
def haveOneValidDirection (grid : Grid) (position : Position)
    (currentDirection : Direction) : Except Failure Bool := do
  let c ← readCell grid position
  if c = CHANGE_DIRECTION_CHAR then
    if 1 < countValidTurnDirections grid position currentDirection then
      .error (.raised .multipleDirs)
    else
      .ok true
  else
    .ok false

/-- The direction-scanning loop that appears twice verbatim in
`findNextPosition` (`index.ts`): iterate over the candidate directions, and
return the first whose stepped-to position is within bounds, is not the
componentwise opposite of the current direction, and holds a walkable cell. -/
def scanDirections (grid : Grid) (currentPosition : Position)
    (currentDirection : Direction) :
    List Direction → Option (Position × Direction)
  | [] => none
  | dir :: rest =>
    let potentialPosition := move currentPosition dir
    if isWithinBounds grid potentialPosition then
      let nextChar := cellD grid potentialPosition
      if (dir.row ≠ -currentDirection.row ∨ dir.col ≠ -currentDirection.col) ∧
          (isPathCharacter nextChar || testUpperOrEnd nextChar) = true then
        some (potentialPosition, dir)
      else
        scanDirections grid currentPosition currentDirection rest
    else
      scanDirections grid currentPosition currentDirection rest

/-- The non-`+` part of `findNextPosition` (`index.ts`): try to continue in
the current direction; when the forward cell is within bounds it must be
walkable (otherwise the function returns `null` — no recovery); when the
forward cell is out of bounds and the current cell is an uppercase letter,
scan the perpendicular candidates. -/
def findNextStraight (grid : Grid) (currentPosition : Position)
    (currentDirection : Direction) (currentChar : String) :
    Option (Position × Direction) :=
  let potentialPosition := move currentPosition currentDirection
  if isWithinBounds grid potentialPosition then
    let nextChar := cellD grid potentialPosition
    if isPathCharacter nextChar || testUpperOrEnd nextChar then
      some (potentialPosition, currentDirection)
    else
      none
  else
    if testUpper currentChar then
      scanDirections grid currentPosition currentDirection
        (filterDirections currentDirection)
    else
      none

/-- `findNextPosition` from `index.ts`.  At a `+` cell,
`haveOneValidDirection` either throws (more than one valid perpendicular
direction) or returns `true`, and the perpendicular candidates are scanned;
otherwise the walker continues straight (with letter dead-end recovery only
when the forward cell is out of bounds).  Returns `.ok none` where the
source returns `null`. -/
def findNextPosition (grid : Grid) (currentPosition : Position)
    (currentDirection : Direction) :
    Except Failure (Option (Position × Direction)) := do
  let currentChar ← readCell grid currentPosition
  if currentChar = CHANGE_DIRECTION_CHAR then
    let b ← haveOneValidDirection grid currentPosition currentDirection
    if b then
      pure (scanDirections grid currentPosition currentDirection
        (filterDirections currentDirection))
    else
      pure (findNextStraight grid currentPosition currentDirection currentChar)
  else
    pure (findNextStraight grid currentPosition currentDirection currentChar)

/-- The `validDirections` list built by `findInitialDirection` (`index.ts`):
all of `DIRECTIONS` whose stepped-to cell is within bounds and walkable
(all reads are guarded by `isWithinBounds`). -/
def validInitialDirections (grid : Grid) (start : Position) : List Direction :=
  DIRECTIONS.filter fun dir =>
    let potentialPosition := move start dir
    if isWithinBounds grid potentialPosition then
      isWalkableCell (cellD grid potentialPosition)
    else
      false

/-- `findInitialDirection` from `index.ts`: exactly one valid direction from
the start, or throw `"The map must contain exactly one starting path."`. -/
def findInitialDirection (grid : Grid) (start : Position) :
    Except Failure (Option Direction) :=
  let validDirections := validInitialDirections grid start
  if validDirections.length = 1 then
    .ok validDirections.head?
  else
    .error (.raised .startingPath)

/-- The local loop state of `collectLettersAndPath`: current position and
direction, and the `path`, `letters` and `location` accumulator arrays. -/
structure LoopState where
  pos : Position
  dir : Direction
  path : List String
  letters : List String
  location : List Position
deriving Repr

/-- The outcome of a (fuel-bounded) walk: the source's success record, a
thrown error, an out-of-bounds unguarded read (proved unreachable), or
`timeout`, meaning the fuel ran out while the source's unbounded
`while (true)` loop would still be running. -/
inductive WalkOutcome
  | ok (letters path : String)
  | raised (e : WalkError)
  | absentRead
  | timeout
deriving DecidableEq, Repr

/-- The `while (true)` loop of `collectLettersAndPath` (`index.ts`), with
explicit fuel: visit the current cell (record it on `path`, collect a
not-yet-collected letter), stop successfully at the end position, otherwise
ask `findNextPosition` for the next step, failing with
`"Path is broken or invalid."` when it returns `null`. -/
def walkLoop (grid : Grid) (endPos : Position) : LoopState → Nat → WalkOutcome
  | _, 0 => .timeout
  | s, n + 1 =>
    match cellAt grid s.pos with
    | none => .absentRead
    | some currentChar =>
      let path' := s.path ++ [currentChar]
      let collect := testUpper currentChar &&
        !isLocationAlreadyUsed s.location s.pos
      let letters' := if collect then s.letters ++ [currentChar] else s.letters
      let location' := if collect then s.location ++ [s.pos] else s.location
      if s.pos.row = endPos.row ∧ s.pos.col = endPos.col then
        .ok (String.join letters') (String.join path')
      else
        match findNextPosition grid s.pos s.dir with
        | .error (.raised e) => .raised e
        | .error .absentRead => .absentRead
        | .ok none => .raised .broken
        | .ok (some (nextPosition, newDirection)) =>
          walkLoop grid endPos
            ⟨nextPosition, newDirection, path', letters', location'⟩ n

/-- `collectLettersAndPath` from `index.ts`, with explicit fuel for the walk
loop: locate the start and end markers, reject zero/multiple starts or a
missing end, infer the initial direction, then run the loop from the cell
one step away from the start with `path` initialised to `["@"]`. -/
def collectLettersAndPath (grid : Grid) (fuel : Nat) : WalkOutcome :=
  match findPosition grid STARTING_CHAR, findPosition grid ENDING_CHAR with
  | some start, some endPos =>
    if hasMultipleOccurrences grid STARTING_CHAR then
      .raised .startEnd
    else
      match findInitialDirection grid start with
      | .error (.raised e) => .raised e
      | .error .absentRead => .absentRead
      | .ok none => .raised .invalidStart
      | .ok (some direction) =>
        walkLoop grid endPos
          ⟨move start direction, direction, [STARTING_CHAR], [], []⟩ fuel
  | _, _ => .raised .startEnd

/-! ### Helper lemmas about the grid primitives -/

theorem cellAt_isSome (grid : Grid) (position : Position) :
    (cellAt grid position).isSome = isWithinBounds grid position := by
  unfold cellAt isWithinBounds
  by_cases h1 : 0 ≤ position.row
  · by_cases h2 : 0 ≤ position.col
    · simp only [h1, h2, and_self, if_true]
      cases hr : grid.get? position.row.toNat with
      | none =>
        rw [List.get?_eq_none] at hr
        have : ¬ position.row < (grid.length : Int) := by omega
        simp [this, h1, h2]
      | some r =>
        have hlt : position.row.toNat < grid.length := by
          by_contra hc
          rw [List.get?_eq_none.mpr (Nat.le_of_not_lt hc)] at hr
          exact Option.noConfusion hr
        have hrow : position.row < (grid.length : Int) := by omega
        have hgetD : grid.getD position.row.toNat [] = r := by
          rw [List.getD_eq_getElem?_getD, ← List.get?_eq_getElem?, hr]; rfl
        rw [hgetD]
        simp only [hr, Option.some_bind]
        cases hc : r.get? position.col.toNat with
        | none =>
          rw [List.get?_eq_none] at hc
          have : ¬ position.col < (r.length : Int) := by omega
          simp [this, h1, h2, hrow]
        | some c =>
          have hclt : position.col.toNat < r.length := by
            by_contra hcc
            rw [List.get?_eq_none.mpr (Nat.le_of_not_lt hcc)] at hc
            exact Option.noConfusion hc
          have : position.col < (r.length : Int) := by omega
          simp [this, h1, h2, hrow]
    · simp [h1, h2]
  · simp [h1]

theorem isWithinBounds_cellAt {grid : Grid} {position : Position}
    (h : isWithinBounds grid position = true) :
    cellAt grid position = some (cellD grid position) := by
  have := cellAt_isSome grid position
  rw [h] at this
  obtain ⟨c, hc⟩ := Option.isSome_iff_exists.mp this
  rw [hc]
  simp [cellD, hc]

theorem cellD_of_cellAt {grid : Grid} {position : Position} {c : String}
    (h : cellAt grid position = some c) : cellD grid position = c := by
  simp [cellD, h]

theorem isLocationAlreadyUsed_iff (location : List Position) (p : Position) :
    isLocationAlreadyUsed location p = true ↔ p ∈ location := by
  unfold isLocationAlreadyUsed
  rw [List.any_eq_true]
  constructor
  · rintro ⟨v, hv, hvp⟩
    simp only [Bool.and_eq_true, decide_eq_true_eq] at hvp
    have : v = p := by cases v; cases p; simp_all
    rwa [this] at hv
  · intro hp
    exact ⟨p, hp, by simp⟩

theorem findPositionRow_get {row : List String} {char : String} {c : Nat}
    (h : findPositionRow row char = some c) : row.get? c = some char := by
  induction row generalizing c with
  | nil => simp [findPositionRow] at h
  | cons x xs ih =>
    unfold findPositionRow at h
    by_cases hx : x = char
    · simp only [hx, if_true] at h
      cases h
      simp [hx]
    · simp only [hx, if_false] at h
      cases hrec : findPositionRow xs char with
      | none => rw [hrec] at h; simp at h
      | some c' =>
        rw [hrec] at h
        simp only [Option.map_some'] at h
        cases h
        simpa using ih hrec

theorem findPositionFrom_cellAt {rows : List (List String)} {char : String}
    {r : Nat} {p : Position} (h : findPositionFrom rows char r = some p) :
    ∃ i c, p = ⟨(r + i : Nat), (c : Nat)⟩ ∧
      ∃ row, rows.get? i = some row ∧ row.get? c = some char := by
  induction rows generalizing r with
  | nil => simp [findPositionFrom] at h
  | cons row rest ih =>
    unfold findPositionFrom at h
    cases hr : findPositionRow row char with
    | some c =>
      rw [hr] at h
      cases h
      exact ⟨0, c, by simp, row, by simp, findPositionRow_get hr⟩
    | none =>
      rw [hr] at h
      obtain ⟨i, c, hp, row', hrow', hc⟩ := ih h
      exact ⟨i + 1, c, by rw [hp]; congr 1; omega, row', by simpa using hrow', hc⟩

theorem findPosition_cellAt {grid : Grid} {char : String} {p : Position}
    (h : findPosition grid char = some p) : cellAt grid p = some char := by
  obtain ⟨i, c, hp, row, hrow, hc⟩ := findPositionFrom_cellAt h
  subst hp
  simp only [cellAt]
  rw [if_pos (by constructor <;> positivity)]
  simp only [Int.toNat_natCast]
  rw [show ((0 : Nat) + i) = i by omega, hrow]
  simpa using hc

/-! ### Helper lemmas about the direction resolver -/

theorem scanDirections_some {grid : Grid} {p : Position} {d : Direction}
    {l : List Direction} {q : Position} {d' : Direction}
    (h : scanDirections grid p d l = some (q, d')) :
    d' ∈ l ∧ q = move p d' ∧ isWithinBounds grid q = true ∧
      isWalkableCell (cellD grid q) = true := by
  induction l with
  | nil => simp [scanDirections] at h
  | cons dir rest ih =>
    unfold scanDirections at h
    by_cases hb : isWithinBounds grid (move p dir) = true
    · rw [if_pos hb] at h
      by_cases hcond : (dir.row ≠ -d.row ∨ dir.col ≠ -d.col) ∧
          (isPathCharacter (cellD grid (move p dir)) ||
            testUpperOrEnd (cellD grid (move p dir))) = true
      · rw [if_pos hcond] at h
        cases h
        exact ⟨by simp, rfl, hb, hcond.2⟩
      · rw [if_neg hcond] at h
        obtain ⟨h1, h2, h3, h4⟩ := ih h
        exact ⟨by simp [h1], h2, h3, h4⟩
    · rw [if_neg hb] at h
      obtain ⟨h1, h2, h3, h4⟩ := ih h
      exact ⟨by simp [h1], h2, h3, h4⟩

theorem scanDirections_none_of_novalid {grid : Grid} {p : Position}
    {d : Direction} {l : List Direction}
    (h : ∀ dir ∈ l, ¬(isWithinBounds grid (move p dir) = true ∧
      isWalkableCell (cellD grid (move p dir)) = true)) :
    scanDirections grid p d l = none := by
  induction l with
  | nil => rfl
  | cons dir rest ih =>
    unfold scanDirections
    have hrest : scanDirections grid p d rest = none :=
      ih fun x hx => h x (by simp [hx])
    by_cases hb : isWithinBounds grid (move p dir) = true
    · rw [if_pos hb]
      have hw : ¬ isWalkableCell (cellD grid (move p dir)) = true :=
        fun hw => h dir (by simp) ⟨hb, hw⟩
      rw [if_neg, hrest]
      rintro ⟨-, hc⟩
      exact hw hc
    · rw [if_neg hb, hrest]

theorem findNextStraight_some {grid : Grid} {p : Position} {d : Direction}
    {c : String} {q : Position} {d' : Direction}
    (h : findNextStraight grid p d c = some (q, d')) :
    isWithinBounds grid q = true ∧ (d' = d ∨ d' ∈ filterDirections d) := by
  simp only [findNextStraight] at h
  split at h
  · split at h
    · rename_i hb hw
      injection h with h
      cases h
      exact ⟨hb, Or.inl rfl⟩
    · exact Option.noConfusion h
  · split at h
    · obtain ⟨h1, h2, h3, h4⟩ := scanDirections_some h
      exact ⟨h3, Or.inr h1⟩
    · exact Option.noConfusion h

theorem haveOneValidDirection_at_turn {grid : Grid} {p : Position}
    {d : Direction} (hc : cellAt grid p = some CHANGE_DIRECTION_CHAR) :
    haveOneValidDirection grid p d =
      (if 1 < countValidTurnDirections grid p d then
        .error (.raised .multipleDirs) else .ok true) := by
  unfold haveOneValidDirection readCell
  rw [hc]
  rfl

theorem haveOneValidDirection_not_turn {grid : Grid} {p : Position}
    {d : Direction} {c : String} (hc : cellAt grid p = some c)
    (hne : c ≠ CHANGE_DIRECTION_CHAR) :
    haveOneValidDirection grid p d = .ok false := by
  unfold haveOneValidDirection readCell
  rw [hc]
  show (if c = CHANGE_DIRECTION_CHAR then _ else Except.ok false) = Except.ok false
  exact if_neg hne

theorem findNextPosition_at_turn {grid : Grid} {p : Position} {d : Direction}
    (hc : cellAt grid p = some CHANGE_DIRECTION_CHAR) :
    findNextPosition grid p d =
      (if 1 < countValidTurnDirections grid p d then
        .error (.raised .multipleDirs)
      else
        .ok (scanDirections grid p d (filterDirections d))) := by
  unfold findNextPosition readCell
  rw [hc, haveOneValidDirection_at_turn hc]
  by_cases hcount : 1 < countValidTurnDirections grid p d
  · simp only [hcount, if_true]
    rfl
  · simp only [hcount, if_false]
    rfl

theorem findNextPosition_not_turn {grid : Grid} {p : Position} {d : Direction}
    {c : String} (hc : cellAt grid p = some c)
    (hne : c ≠ CHANGE_DIRECTION_CHAR) :
    findNextPosition grid p d = .ok (findNextStraight grid p d c) := by
  unfold findNextPosition readCell
  rw [hc]
  show (if c = CHANGE_DIRECTION_CHAR then _
    else pure (findNextStraight grid p d c)) = _
  rw [if_neg hne]
  rfl

theorem findNextPosition_ok_some {grid : Grid} {p : Position} {d : Direction}
    {q : Position} {d' : Direction}
    (h : findNextPosition grid p d = .ok (some (q, d'))) :
    isWithinBounds grid q = true ∧ (d' = d ∨ d' ∈ filterDirections d) := by
  cases hc : cellAt grid p with
  | none =>
    unfold findNextPosition readCell at h
    rw [hc] at h
    exact Except.noConfusion h
  | some c =>
    by_cases hne : c = CHANGE_DIRECTION_CHAR
    · subst hne
      rw [findNextPosition_at_turn hc] at h
      split at h
      · exact Except.noConfusion h
      · injection h with h
        obtain ⟨h1, h2, h3, h4⟩ := scanDirections_some h
        exact ⟨h3, Or.inr h1⟩
    · rw [findNextPosition_not_turn hc hne] at h
      injection h with h
      exact findNextStraight_some h

theorem findNextPosition_raised {grid : Grid} {p : Position} {d : Direction}
    {e : WalkError} (h : findNextPosition grid p d = .error (.raised e)) :
    e = .multipleDirs := by
  cases hc : cellAt grid p with
  | none =>
    unfold findNextPosition readCell at h
    rw [hc] at h
    injection h with h
    exact Failure.noConfusion h
  | some c =>
    by_cases hne : c = CHANGE_DIRECTION_CHAR
    · subst hne
      rw [findNextPosition_at_turn hc] at h
      split at h
      · injection h with h
        injection h with h
        exact h.symm
      · exact Except.noConfusion h
    · rw [findNextPosition_not_turn hc hne] at h
      exact Except.noConfusion h

theorem findNextPosition_not_absent {grid : Grid} {p : Position}
    {d : Direction} {c : String} (hc : cellAt grid p = some c) :
    findNextPosition grid p d ≠ .error .absentRead := by
  intro h
  by_cases hne : c = CHANGE_DIRECTION_CHAR
  · subst hne
    rw [findNextPosition_at_turn hc] at h
    split at h
    · injection h with h
      exact Failure.noConfusion h
    · exact Except.noConfusion h
  · rw [findNextPosition_not_turn hc hne] at h
    exact Except.noConfusion h

theorem findInitialDirection_ok {grid : Grid} {s : Position} {d : Direction}
    (h : findInitialDirection grid s = .ok (some d)) :
    d ∈ DIRECTIONS ∧ isWithinBounds grid (move s d) = true ∧
      isWalkableCell (cellD grid (move s d)) = true := by
  simp only [findInitialDirection] at h
  split at h
  · injection h with h
    have hmem : d ∈ validInitialDirections grid s :=
      List.mem_of_mem_head? (Option.mem_def.mpr h)
    unfold validInitialDirections at hmem
    rw [List.mem_filter] at hmem
    obtain ⟨hdir, hcond⟩ := hmem
    by_cases hb : isWithinBounds grid (move s d) = true
    · rw [if_pos hb] at hcond
      exact ⟨hdir, hb, hcond⟩
    · rw [if_neg hb] at hcond
      exact Bool.noConfusion hcond
  · exact Except.noConfusion h

theorem findInitialDirection_error {grid : Grid} {s : Position} {f : Failure}
    (h : findInitialDirection grid s = .error f) :
    f = .raised .startingPath := by
  simp only [findInitialDirection] at h
  split at h
  · exact Except.noConfusion h
  · injection h with h
    exact h.symm

/-! ### Helper lemmas about `String.join` -/

theorem strFoldlAppend (l : List String) (s : String) :
    l.foldl (· ++ ·) s = s ++ l.foldl (· ++ ·) "" := by
  induction l generalizing s with
  | nil => exact (String.append_empty s).symm
  | cons b l ih =>
    show l.foldl (· ++ ·) (s ++ b) = s ++ l.foldl (· ++ ·) ("" ++ b)
    rw [ih (s ++ b), ih ("" ++ b), String.empty_append, String.append_assoc]

theorem strJoin_cons (a : String) (l : List String) :
    String.join (a :: l) = a ++ String.join l := by
  show l.foldl (· ++ ·) ("" ++ a) = a ++ String.join l
  rw [String.empty_append]
  exact strFoldlAppend l a

theorem strJoin_data (l : List String) :
    (String.join l).data = (l.map String.data).flatten := by
  induction l with
  | nil => rfl
  | cons a l ih => rw [strJoin_cons, String.data_append, ih, List.map_cons, List.flatten_cons]

/-! ### The collected-letter positions of a visit sequence -/

/-- Which positions the walk loop collects a letter from, as a function of
the sequence of visited positions: scanning the visits in order, a position
is collected when its cell contains an uppercase letter and it is not yet in
the `location` accumulator, and collecting appends it to the accumulator. -/
def collectedFrom (grid : Grid) (location : List Position) :
    List Position → List Position
  | [] => []
  | q :: vs =>
    if testUpper (cellD grid q) && !isLocationAlreadyUsed location q then
      q :: collectedFrom grid (location ++ [q]) vs
    else
      collectedFrom grid location vs

theorem collectedFrom_cons (grid : Grid) (location : List Position)
    (q : Position) (vs : List Position) :
    collectedFrom grid location (q :: vs) =
      (if (testUpper (cellD grid q) && !isLocationAlreadyUsed location q) = true
        then q :: collectedFrom grid (location ++ [q]) vs
        else collectedFrom grid location vs) := rfl

theorem collectedFrom_mem (grid : Grid) (vs : List Position) :
    ∀ location q, q ∈ collectedFrom grid location vs ↔
      (q ∈ vs ∧ testUpper (cellD grid q) = true ∧ q ∉ location) := by
  induction vs with
  | nil => simp [collectedFrom]
  | cons q0 vs ih =>
    intro location q
    unfold collectedFrom
    by_cases hcol : (testUpper (cellD grid q0) &&
        !isLocationAlreadyUsed location q0) = true
    · rw [if_pos hcol]
      simp only [Bool.and_eq_true, Bool.not_eq_true'] at hcol
      obtain ⟨hup0, hused0⟩ := hcol
      have hnotin0 : q0 ∉ location := fun hin =>
        by rw [(isLocationAlreadyUsed_iff location q0).mpr hin] at hused0; cases hused0
      constructor
      · intro hq
        rcases List.mem_cons.mp hq with hq | hq
        · subst hq
          exact ⟨List.mem_cons_self _ _, hup0, hnotin0⟩
        · obtain ⟨h1, h2, h3⟩ := (ih _ q).mp hq
          have hq0 : q ≠ q0 := by
            intro he
            subst he
            exact h3 (by simp)
          refine ⟨List.mem_cons_of_mem _ h1, h2, fun hin => h3 (by simp [hin])⟩
      · rintro ⟨h1, h2, h3⟩
        rcases List.mem_cons.mp h1 with h1 | h1
        · subst h1
          exact List.mem_cons_self _ _
        · by_cases hq0 : q = q0
          · subst hq0
            exact List.mem_cons_self _ _
          · refine List.mem_cons_of_mem _ ((ih _ q).mpr ⟨h1, h2, ?_⟩)
            simp only [List.mem_append, List.mem_singleton]
            rintro (hin | hin)
            · exact h3 hin
            · exact hq0 hin
    · rw [if_neg hcol]
      simp only [Bool.and_eq_true, Bool.not_eq_true', not_and] at hcol
      constructor
      · intro hq
        obtain ⟨h1, h2, h3⟩ := (ih _ q).mp hq
        exact ⟨List.mem_cons_of_mem _ h1, h2, h3⟩
      · rintro ⟨h1, h2, h3⟩
        rcases List.mem_cons.mp h1 with h1 | h1
        · subst h1
          have := hcol h2
          rw [Bool.not_eq_false] at this
          exact absurd ((isLocationAlreadyUsed_iff _ _).mp this) h3
        · exact (ih _ q).mpr ⟨h1, h2, h3⟩

theorem collectedFrom_nodup (grid : Grid) (vs : List Position) :
    ∀ location, (collectedFrom grid location vs).Nodup := by
  induction vs with
  | nil => intro location; simp [collectedFrom]
  | cons q0 vs ih =>
    intro location
    unfold collectedFrom
    by_cases hcol : (testUpper (cellD grid q0) &&
        !isLocationAlreadyUsed location q0) = true
    · rw [if_pos hcol]
      refine List.nodup_cons.mpr ⟨fun hin => ?_, ih _⟩
      have := (collectedFrom_mem grid vs _ q0).mp hin
      exact this.2.2 (by simp)
    · rw [if_neg hcol]
      exact ih _

theorem collectedFrom_sublist (grid : Grid) (vs : List Position) :
    ∀ location, (collectedFrom grid location vs).Sublist vs := by
  induction vs with
  | nil => intro location; simp [collectedFrom]
  | cons q0 vs ih =>
    intro location
    unfold collectedFrom
    by_cases hcol : (testUpper (cellD grid q0) &&
        !isLocationAlreadyUsed location q0) = true
    · rw [if_pos hcol]
      exact List.Sublist.cons₂ _ (ih _)
    · rw [if_neg hcol]
      exact List.Sublist.cons _ (ih _)

/-! ### Helper lemmas about the walk loop -/

theorem walkLoop_raised_classify {grid : Grid} {e : Position} {n : Nat} :
    ∀ {s : LoopState} {er : WalkError},
    walkLoop grid e s n = .raised er → er = .multipleDirs ∨ er = .broken := by
  induction n with
  | zero =>
    intro s er h
    simp [walkLoop] at h
  | succ n ih =>
    intro s er h
    rw [walkLoop] at h
    cases hc : cellAt grid s.pos with
    | none =>
      rw [hc] at h
      exact WalkOutcome.noConfusion h
    | some c =>
      rw [hc] at h
      simp only at h
      split at h
      · exact WalkOutcome.noConfusion h
      · cases hfn : findNextPosition grid s.pos s.dir with
        | error f =>
          cases f with
          | raised e' =>
            rw [hfn] at h
            simp only at h
            injection h with h
            exact Or.inl (h ▸ findNextPosition_raised hfn)
          | absentRead =>
            rw [hfn] at h
            simp only at h
            exact WalkOutcome.noConfusion h
        | ok o =>
          cases o with
          | none =>
            rw [hfn] at h
            simp only at h
            injection h with h
            exact Or.inr h.symm
          | some qd =>
            obtain ⟨q, d'⟩ := qd
            rw [hfn] at h
            simp only at h
            exact ih h

theorem walkLoop_not_absent {grid : Grid} {e : Position} {n : Nat} :
    ∀ {s : LoopState}, isWithinBounds grid s.pos = true →
    walkLoop grid e s n ≠ .absentRead := by
  induction n with
  | zero =>
    intro s _ h
    simp [walkLoop] at h
  | succ n ih =>
    intro s hin h
    rw [walkLoop] at h
    have hc := isWithinBounds_cellAt hin
    rw [hc] at h
    simp only at h
    split at h
    · exact WalkOutcome.noConfusion h
    · cases hfn : findNextPosition grid s.pos s.dir with
      | error f =>
        cases f with
        | raised e' =>
          rw [hfn] at h
          simp only at h
          exact WalkOutcome.noConfusion h
        | absentRead =>
          exact findNextPosition_not_absent hc hfn
      | ok o =>
        cases o with
        | none =>
          rw [hfn] at h
          simp only at h
          exact WalkOutcome.noConfusion h
        | some qd =>
          obtain ⟨q, d'⟩ := qd
          rw [hfn] at h
          simp only at h
          exact ih (findNextPosition_ok_some hfn).1 h

/-- Equality of two positions follows from equality of both fields (the
source compares `row` and `col` separately). -/
theorem position_eq {p q : Position} (h1 : p.row = q.row) (h2 : p.col = q.col) :
    p = q := by
  cases p
  cases q
  simp_all

/-- One-step unfolding of the walk loop when the current cell is present. -/
theorem walkLoop_succ {grid : Grid} {e : Position} {s : LoopState} {n : Nat}
    {c : String} (hc : cellAt grid s.pos = some c) :
    walkLoop grid e s (n + 1) =
      (if s.pos.row = e.row ∧ s.pos.col = e.col then
        .ok (String.join (if (testUpper c &&
              !isLocationAlreadyUsed s.location s.pos) = true then
            s.letters ++ [c] else s.letters))
          (String.join (s.path ++ [c]))
      else
        match findNextPosition grid s.pos s.dir with
        | .error (.raised er) => .raised er
        | .error .absentRead => .absentRead
        | .ok none => .raised .broken
        | .ok (some (q, d')) =>
          walkLoop grid e ⟨q, d', s.path ++ [c],
            (if (testUpper c && !isLocationAlreadyUsed s.location s.pos) = true
              then s.letters ++ [c] else s.letters),
            (if (testUpper c && !isLocationAlreadyUsed s.location s.pos) = true
              then s.location ++ [s.pos] else s.location)⟩ n) := by
  rw [walkLoop, hc]

/-- The master description of a successful run of the walk loop: there is a
non-empty sequence `vs` of visited positions, starting at the state's
current position and ending at the end position, all of them present in the
grid, such that the returned `path` extends the accumulator by the visited
cells in order and the returned `letters` extends the accumulator by the
cells of the positions collected (first visit of a letter cell only). -/
theorem walkLoop_ok_spec {grid : Grid} {e : Position} {n : Nat} :
    ∀ {s : LoopState} {L P : String},
    walkLoop grid e s n = .ok L P →
    ∃ vs : List Position,
      vs ≠ [] ∧ vs.head? = some s.pos ∧ vs.getLast? = some e ∧
      (∀ q ∈ vs, (cellAt grid q).isSome = true) ∧
      L = String.join (s.letters ++
        (collectedFrom grid s.location vs).map (cellD grid)) ∧
      P = String.join (s.path ++ vs.map (cellD grid)) := by
  induction n with
  | zero =>
    intro s L P h
    simp [walkLoop] at h
  | succ n ih =>
    intro s L P h
    cases hc : cellAt grid s.pos with
    | none =>
      rw [walkLoop, hc] at h
      exact WalkOutcome.noConfusion h
    | some c =>
      rw [walkLoop_succ hc] at h
      have hcd : cellD grid s.pos = c := cellD_of_cellAt hc
      by_cases hend : s.pos.row = e.row ∧ s.pos.col = e.col
      · rw [if_pos hend] at h
        have hpe : s.pos = e := position_eq hend.1 hend.2
        injection h with hL hP
        refine ⟨[s.pos], by simp, by simp, by simp [hpe], ?_, ?_, ?_⟩
        · intro q hq
          rw [List.mem_singleton] at hq
          subst hq
          simp [hc]
        · rw [← hL, collectedFrom_cons, hcd]
          by_cases hcol : (testUpper c &&
              !isLocationAlreadyUsed s.location s.pos) = true
          · simp only [if_pos hcol]
            simp [collectedFrom, hcd]
          · simp only [if_neg hcol]
            simp [collectedFrom]
        · rw [← hP]
          congr 2
          simp [hcd]
      · rw [if_neg hend] at h
        cases hfn : findNextPosition grid s.pos s.dir with
        | error f =>
          cases f with
          | raised e' =>
            rw [hfn] at h
            exact WalkOutcome.noConfusion h
          | absentRead =>
            rw [hfn] at h
            exact WalkOutcome.noConfusion h
        | ok o =>
          cases o with
          | none =>
            rw [hfn] at h
            exact WalkOutcome.noConfusion h
          | some qd =>
            obtain ⟨q, d'⟩ := qd
            rw [hfn] at h
            obtain ⟨vs', hne, hhead, hlast, hmem, hL, hP⟩ := ih h
            simp only at hhead hlast hmem hL hP
            refine ⟨s.pos :: vs', by simp, by simp, ?_, ?_, ?_, ?_⟩
            · cases vs' with
              | nil => exact absurd rfl hne
              | cons v vt => rw [List.getLast?_cons_cons]; exact hlast
            · intro r hr
              rcases List.mem_cons.mp hr with hr | hr
              · subst hr
                simp [hc]
              · exact hmem r hr
            · rw [hL, collectedFrom_cons, hcd]
              by_cases hcol : (testUpper c &&
                  !isLocationAlreadyUsed s.location s.pos) = true
              · simp only [if_pos hcol]
                rw [List.map_cons, hcd, List.append_assoc]
                rfl
              · simp only [if_neg hcol]
            · rw [hP]
              rw [List.map_cons, hcd, List.append_assoc]
              rfl

/-! ### Helper lemmas about the entry point -/

theorem collect_eq_walkLoop {grid : Grid} {start endPos : Position}
    {d : Direction} {n : Nat}
    (hs : findPosition grid STARTING_CHAR = some start)
    (he : findPosition grid ENDING_CHAR = some endPos)
    (hm : hasMultipleOccurrences grid STARTING_CHAR = false)
    (hd : findInitialDirection grid start = .ok (some d)) :
    collectLettersAndPath grid n =
      walkLoop grid endPos ⟨move start d, d, [STARTING_CHAR], [], []⟩ n := by
  unfold collectLettersAndPath
  rw [hs, he]
  simp only [hm, Bool.false_eq_true, if_false, hd]

theorem collect_startEnd_iff (grid : Grid) (n : Nat) :
    collectLettersAndPath grid n = .raised .startEnd ↔
      (findPosition grid STARTING_CHAR = none ∨
        findPosition grid ENDING_CHAR = none ∨
        hasMultipleOccurrences grid STARTING_CHAR = true) := by
  unfold collectLettersAndPath
  cases hs : findPosition grid STARTING_CHAR with
  | none => simp [hs]
  | some start =>
    cases he : findPosition grid ENDING_CHAR with
    | none => simp
    | some endPos =>
      simp only [Option.some.injEq, reduceCtorEq, false_or, exists_and_right]
      cases hm : hasMultipleOccurrences grid STARTING_CHAR with
      | true => simp
      | false =>
        simp only [Bool.false_eq_true, if_false, or_false, iff_false]
        cases hd : findInitialDirection grid start with
        | error f =>
          rw [findInitialDirection_error hd]
          intro hcon
          injection hcon with hcon
          exact WalkError.noConfusion hcon
        | ok o =>
          cases o with
          | none =>
            intro hcon
            injection hcon with hcon
            exact WalkError.noConfusion hcon
          | some dir =>
            intro hcon
            rcases walkLoop_raised_classify hcon with h | h <;>
              exact WalkError.noConfusion h

/-- Any non-`timeout` result of the walk loop is stable under extra fuel:
the fuel is an artifact of the embedding, not of the source loop. -/
theorem walkLoop_mono {grid : Grid} {e : Position} :
    ∀ {n m : Nat} {s : LoopState}, n ≤ m →
    walkLoop grid e s n ≠ .timeout →
    walkLoop grid e s m = walkLoop grid e s n := by
  intro n
  induction n with
  | zero =>
    intro m s _ hnt
    exact absurd rfl hnt
  | succ n ih =>
    intro m s hle hnt
    obtain ⟨m', rfl⟩ : ∃ m', m = m' + 1 :=
      ⟨m - 1, by omega⟩
    have hle' : n ≤ m' := by omega
    cases hc : cellAt grid s.pos with
    | none =>
      rw [walkLoop, hc, walkLoop, hc]
    | some c =>
      rw [walkLoop_succ hc, walkLoop_succ (n := n) hc]
      by_cases hend : s.pos.row = e.row ∧ s.pos.col = e.col
      · rw [if_pos hend, if_pos hend]
      · rw [if_neg hend, if_neg hend]
        cases hfn : findNextPosition grid s.pos s.dir with
        | error f =>
          cases f with
          | raised e' => rfl
          | absentRead => rfl
        | ok o =>
          cases o with
          | none => rfl
          | some qd =>
            obtain ⟨q, d'⟩ := qd
            apply ih hle'
            intro ht
            apply hnt
            rw [walkLoop_succ hc, if_neg hend, hfn]
            exact ht

/-- Any non-`timeout` result of `collectLettersAndPath` is stable under
extra fuel. -/
theorem collect_mono {grid : Grid} {n m : Nat} (hle : n ≤ m)
    (hnt : collectLettersAndPath grid n ≠ .timeout) :
    collectLettersAndPath grid m = collectLettersAndPath grid n := by
  unfold collectLettersAndPath at hnt ⊢
  cases hs : findPosition grid STARTING_CHAR with
  | none => rfl
  | some start =>
    cases he : findPosition grid ENDING_CHAR with
    | none => rfl
    | some endPos =>
      rw [hs, he] at hnt
      cases hm : hasMultipleOccurrences grid STARTING_CHAR with
      | true => simp [hm]
      | false =>
        rw [hm] at hnt
        simp only [Bool.false_eq_true, if_false] at hnt ⊢
        cases hd : findInitialDirection grid start with
        | error f =>
          cases f with
          | raised e' => rfl
          | absentRead => rfl
        | ok o =>
          cases o with
          | none => rfl
          | some dir =>
            rw [hd] at hnt
            exact walkLoop_mono hle hnt

/-! ### Fixture grids from the repository (`src/maps.ts` and the tests) -/

/-- `fakeTurnMap` from `src/maps.ts`. -/
def fakeTurnMap : Grid := [["@", "-", "A", "-", "+", "-", "B", "-", "x"]]

/-- `missingStartCharacterMap` from `src/maps.ts`. -/
def missingStartCharacterMap : Grid := [
  ["", "", "-", "A", "-", "-", "+"],
  ["", "", "", "", "", "", "|"],
  ["x", "-", "B", "-", "+", "", "C"],
  ["", "", "|", " ", "|", "", ""],
  ["", "", "+", "-", "-", "-", "+"]]

/-- A grid with one start marker and two end markers: the path reaches the
first `x` and the second is never examined. -/
def twoEndsMap : Grid := [["@", "-", "x", "-", "x"]]

/-! ### Claim C5 -/

/-- Claim C5 (confirmed): on the single-row grid `@-A-+-B-x`, where the `+`
cell has no perpendicular walkable neighbour, `collectLettersAndPath` fails
with the error "Path is broken or invalid." — not with "The map must have
only one valid direction." — a `+` cell never continues straight. -/
theorem claim_C5 :
    collectLettersAndPath fakeTurnMap 10 = .raised .broken ∧
    (∀ m, 10 ≤ m → collectLettersAndPath fakeTurnMap m = .raised .broken) ∧
    errorMessage .broken = "Path is broken or invalid." ∧
    WalkError.broken ≠ WalkError.multipleDirs := by
  have h10 : collectLettersAndPath fakeTurnMap 10 = .raised .broken := by decide
  refine ⟨h10, fun m hm => ?_, by decide, by decide⟩
  rw [collect_mono hm (by simp [h10]), h10]

/-- Witness for C5: the loop keeps failing the same way with more fuel. -/
theorem claim_C5_witness :
    collectLettersAndPath fakeTurnMap 12 = .raised .broken :=
  claim_C5.2.1 12 (by norm_num)

/-! ### Claim C1 -/

/-- Claim C1 counterexample: the grid `@-x-x` contains two end markers `x`,
yet `collectLettersAndPath` does not reject it — the validation only counts
start markers, and the walk succeeds with path `@-x` (and with zero fuel the
outcome is a timeout of the embedding, not the start/end rejection, so no
rejection happens before traversal either). -/
theorem claim_C1_counterexample :
    hasMultipleOccurrences twoEndsMap ENDING_CHAR = true ∧
    collectLettersAndPath twoEndsMap 2 = .ok "" "@-x" ∧
    collectLettersAndPath twoEndsMap 0 ≠ .raised .startEnd := by
  refine ⟨by decide, by decide, by decide⟩

/-- Claim C1 (amended): the walk is rejected with the error
"The map must contain exactly one start '@' and one end 'x'." — before any
traversal, for every fuel — exactly when the grid has no start marker, no
end marker, or more than one start marker.  Multiple end markers are not
detected: only the first `x` found is used as the end position. -/
theorem claim_C1 (grid : Grid) (n : Nat) :
    (collectLettersAndPath grid n = .raised .startEnd ↔
      (findPosition grid STARTING_CHAR = none ∨
        findPosition grid ENDING_CHAR = none ∨
        hasMultipleOccurrences grid STARTING_CHAR = true)) ∧
    errorMessage .startEnd =
      "The map must contain exactly one start \x27@\x27 and one end \x27x\x27." :=
  ⟨collect_startEnd_iff grid n, rfl⟩

/-- Witness for C1: the repository's missing-start fixture is rejected with
the start/end error already at fuel zero. -/
theorem claim_C1_witness :
    collectLettersAndPath missingStartCharacterMap 0 = .raised .startEnd :=
  (claim_C1 missingStartCharacterMap 0).1.mpr (Or.inl (by decide))

/-! ### Claim C6 -/

/-- Claim C6 (confirmed): initial direction inference examines all four
cardinal directions with no axis filtering; a direction is a candidate
exactly when the adjacent cell is in bounds and walkable; with exactly one
candidate that direction is returned, otherwise the walk fails with
"The map must contain exactly one starting path." -/
theorem claim_C6 (grid : Grid) (start : Position) :
    (∀ d : Direction, d ∈ validInitialDirections grid start ↔
      (d ∈ DIRECTIONS ∧ isWithinBounds grid (move start d) = true ∧
        isWalkableCell (cellD grid (move start d)) = true)) ∧
    ((validInitialDirections grid start).length ≠ 1 →
      findInitialDirection grid start = .error (.raised .startingPath)) ∧
    ((validInitialDirections grid start).length = 1 →
      ∃ d, findInitialDirection grid start = .ok (some d) ∧
        d ∈ validInitialDirections grid start) ∧
    (∀ n, findPosition grid STARTING_CHAR = some start →
      (∃ e, findPosition grid ENDING_CHAR = some e) →
      hasMultipleOccurrences grid STARTING_CHAR = false →
      (validInitialDirections grid start).length ≠ 1 →
      collectLettersAndPath grid n = .raised .startingPath) ∧
    errorMessage .startingPath =
      "The map must contain exactly one starting path." := by
  refine ⟨?_, ?_, ?_, ?_, rfl⟩
  · intro d
    unfold validInitialDirections
    rw [List.mem_filter]
    constructor
    · rintro ⟨hdir, hcond⟩
      by_cases hb : isWithinBounds grid (move start d) = true
      · rw [if_pos hb] at hcond
        exact ⟨hdir, hb, hcond⟩
      · rw [if_neg hb] at hcond
        exact Bool.noConfusion hcond
    · rintro ⟨hdir, hb, hw⟩
      exact ⟨hdir, by rw [if_pos hb]; exact hw⟩
  · intro hlen
    unfold findInitialDirection
    rw [if_neg hlen]
  · intro hlen
    unfold findInitialDirection
    rw [if_pos hlen]
    cases hv : validInitialDirections grid start with
    | nil => rw [hv] at hlen; exact absurd hlen (by simp)
    | cons a t => exact ⟨a, by simp, by simp [hv]⟩
  · intro n hs ⟨e, he⟩ hm hlen
    unfold collectLettersAndPath
    rw [hs, he]
    simp only [hm, Bool.false_eq_true, if_false]
    unfold findInitialDirection
    rw [if_neg hlen]

/-- Witness for C6: on the one-row grid `x-B-@-A-x` the start cell has two
walkable neighbours, so the walk fails with the starting-path error. -/
theorem claim_C6_witness :
    collectLettersAndPath [["x", "-", "B", "-", "@", "-", "A", "-", "x"]] 3 =
      .raised .startingPath :=
  (claim_C6 [["x", "-", "B", "-", "@", "-", "A", "-", "x"]] ⟨0, 4⟩).2.2.2.1 3
    (by decide) ⟨⟨0, 0⟩, by decide⟩ (by decide) (by decide)

/-! ### Claim C8 -/

/-- Claim C8 (confirmed): every successful step of the resolver keeps the
direction or turns to a perpendicular one, and never reverses: the returned
direction is the current one or has zero dot product with it, is never the
componentwise opposite of the current one, and is again one of the four
cardinal directions — so on any walk two consecutive steps are never in
opposite directions. -/
theorem claim_C8 (grid : Grid) (p : Position) (d : Direction) (q : Position)
    (d' : Direction) (hd : d ∈ DIRECTIONS)
    (h : findNextPosition grid p d = .ok (some (q, d'))) :
    (d' = d ∨ d'.row * d.row + d'.col * d.col = 0) ∧
    d' ≠ oppositeOf d ∧ d' ∈ DIRECTIONS := by
  obtain ⟨hb, hdisj⟩ := findNextPosition_ok_some h
  simp only [DIRECTIONS, List.mem_cons, List.not_mem_nil, or_false] at hd
  rcases hd with rfl | rfl | rfl | rfl
  · rcases hdisj with rfl | hm
    · exact ⟨Or.inl rfl, by decide, by decide⟩
    · rw [show filterDirections ⟨-1, 0⟩ = [⟨0, -1⟩, ⟨0, 1⟩] from by decide] at hm
      simp only [List.mem_cons, List.not_mem_nil, or_false] at hm
      rcases hm with rfl | rfl <;> exact ⟨Or.inr (by decide), by decide, by decide⟩
  · rcases hdisj with rfl | hm
    · exact ⟨Or.inl rfl, by decide, by decide⟩
    · rw [show filterDirections ⟨1, 0⟩ = [⟨0, -1⟩, ⟨0, 1⟩] from by decide] at hm
      simp only [List.mem_cons, List.not_mem_nil, or_false] at hm
      rcases hm with rfl | rfl <;> exact ⟨Or.inr (by decide), by decide, by decide⟩
  · rcases hdisj with rfl | hm
    · exact ⟨Or.inl rfl, by decide, by decide⟩
    · rw [show filterDirections ⟨0, -1⟩ = [⟨-1, 0⟩, ⟨1, 0⟩] from by decide] at hm
      simp only [List.mem_cons, List.not_mem_nil, or_false] at hm
      rcases hm with rfl | rfl <;> exact ⟨Or.inr (by decide), by decide, by decide⟩
  · rcases hdisj with rfl | hm
    · exact ⟨Or.inl rfl, by decide, by decide⟩
    · rw [show filterDirections ⟨0, 1⟩ = [⟨-1, 0⟩, ⟨1, 0⟩] from by decide] at hm
      simp only [List.mem_cons, List.not_mem_nil, or_false] at hm
      rcases hm with rfl | rfl <;> exact ⟨Or.inr (by decide), by decide, by decide⟩

/-- Witness for C8: a concrete straight step on the grid `@-x`. -/
theorem claim_C8_witness :
    ((⟨0, 1⟩ : Direction) = ⟨0, 1⟩ ∨ (0 : Int) * 0 + 1 * 1 = 0) ∧
    (⟨0, 1⟩ : Direction) ≠ oppositeOf ⟨0, 1⟩ ∧
    (⟨0, 1⟩ : Direction) ∈ DIRECTIONS := by
  have := claim_C8 [["@", "-", "x"]] ⟨0, 1⟩ ⟨0, 1⟩ ⟨0, 2⟩ ⟨0, 1⟩
    (by decide) rfl
  exact ⟨Or.inl rfl, this.2.1, this.2.2⟩

/-! ### Claim C4 -/

theorem foldl_count_aux (grid : Grid) (p : Position) :
    ∀ (l : List Direction) (k : Nat),
    l.foldl (fun n direction =>
      let newPosition := move p direction
      if isWithinBounds grid newPosition then
        if isWalkableCell (cellD grid newPosition) then n + 1 else n
      else n) k =
    k + l.countP (fun dir => isWithinBounds grid (move p dir) &&
      isWalkableCell (cellD grid (move p dir))) := by
  intro l
  induction l with
  | nil => intro k; simp
  | cons a l ih =>
    intro k
    rw [List.foldl_cons, List.countP_cons]
    by_cases h1 : isWithinBounds grid (move p a) = true
    · by_cases h2 : isWalkableCell (cellD grid (move p a)) = true
      · simp only [h1, h2, if_true, Bool.and_self, ih]
        omega
      · simp [h1, h2, ih]
    · simp [h1, ih]

theorem countValidTurnDirections_eq_countP (grid : Grid) (p : Position)
    (d : Direction) :
    countValidTurnDirections grid p d =
      (filterDirections d).countP (fun dir =>
        isWithinBounds grid (move p dir) &&
        isWalkableCell (cellD grid (move p dir))) := by
  unfold countValidTurnDirections
  rw [foldl_count_aux]
  omega

theorem countValid_zero {grid : Grid} {p : Position} {d : Direction}
    (h : countValidTurnDirections grid p d = 0) :
    ∀ dir ∈ filterDirections d, ¬(isWithinBounds grid (move p dir) = true ∧
      isWalkableCell (cellD grid (move p dir)) = true) := by
  rw [countValidTurnDirections_eq_countP] at h
  intro dir hdir hcon
  have := List.countP_eq_zero.mp h dir hdir
  simp [hcon.1, hcon.2] at this

/-- Claim C4 (confirmed): at a turn cell `+` that is not the end, more than
one valid perpendicular direction makes `haveOneValidDirection` itself — the
direction resolver — throw "The map must have only one valid direction.",
which the step resolver and the walk loop propagate unchanged; with zero
valid perpendicular directions the resolver succeeds (returns `true`), the
step resolver returns `null`, and it is the walk loop that fails with
"Path is broken or invalid." -/
theorem claim_C4 (grid : Grid) (e p : Position) (d : Direction)
    (path letters : List String) (location : List Position) (n : Nat)
    (hc : cellAt grid p = some CHANGE_DIRECTION_CHAR)
    (hne : ¬(p.row = e.row ∧ p.col = e.col)) :
    (1 < countValidTurnDirections grid p d →
      haveOneValidDirection grid p d = .error (.raised .multipleDirs) ∧
      findNextPosition grid p d = .error (.raised .multipleDirs) ∧
      walkLoop grid e ⟨p, d, path, letters, location⟩ (n + 1) =
        .raised .multipleDirs ∧
      errorMessage .multipleDirs =
        "The map must have only one valid direction.") ∧
    (countValidTurnDirections grid p d = 0 →
      haveOneValidDirection grid p d = .ok true ∧
      findNextPosition grid p d = .ok none ∧
      walkLoop grid e ⟨p, d, path, letters, location⟩ (n + 1) =
        .raised .broken ∧
      errorMessage .broken = "Path is broken or invalid.") := by
  constructor
  · intro hcount
    have h1 : haveOneValidDirection grid p d = .error (.raised .multipleDirs) := by
      rw [haveOneValidDirection_at_turn hc, if_pos hcount]
    have h2 : findNextPosition grid p d = .error (.raised .multipleDirs) := by
      rw [findNextPosition_at_turn hc, if_pos hcount]
    refine ⟨h1, h2, ?_, rfl⟩
    rw [walkLoop_succ hc, if_neg hne, h2]
  · intro hcount
    have hnl : ¬ 1 < countValidTurnDirections grid p d := by omega
    have h1 : haveOneValidDirection grid p d = .ok true := by
      rw [haveOneValidDirection_at_turn hc, if_neg hnl]
    have hscan : scanDirections grid p d (filterDirections d) = none :=
      scanDirections_none_of_novalid (countValid_zero hcount)
    have h2 : findNextPosition grid p d = .ok none := by
      rw [findNextPosition_at_turn hc, if_neg hnl, hscan]
    refine ⟨h1, h2, ?_, rfl⟩
    rw [walkLoop_succ hc, if_neg hne, h2]

/-- `forkInPathMap` from `src/maps.ts`. -/
def forkInPathMap : Grid := [
  [" ", " ", " ", " ", " ", " ", "x", "-", "B"],
  [" ", " ", " ", " ", " ", " ", " ", " ", "|"],
  [" ", "@", "-", "-", "A", "-", "-", "-", "+"],
  [" ", " ", " ", " ", " ", " ", " ", " ", "|"],
  [" ", " ", " ", " ", " ", "x", "+", " ", "C"],
  [" ", " ", " ", " ", " ", " ", "|", " ", "|"],
  [" ", " ", " ", " ", " ", " ", "+", "-", "-", "+"]]

/-- Witness for C4: the fork cell of `forkInPathMap` has two valid
perpendicular directions and makes the resolver throw; the `+` of
`fakeTurnMap` has zero and makes the walk loop fail as broken. -/
theorem claim_C4_witness :
    haveOneValidDirection forkInPathMap ⟨2, 8⟩ ⟨0, 1⟩ =
      .error (.raised .multipleDirs) ∧
    walkLoop forkInPathMap ⟨0, 6⟩ ⟨⟨2, 8⟩, ⟨0, 1⟩, [], [], []⟩ 1 =
      .raised .multipleDirs ∧
    haveOneValidDirection fakeTurnMap ⟨0, 4⟩ ⟨0, 1⟩ = .ok true ∧
    walkLoop fakeTurnMap ⟨0, 8⟩ ⟨⟨0, 4⟩, ⟨0, 1⟩, [], [], []⟩ 1 =
      .raised .broken := by
  have h1 := claim_C4 forkInPathMap ⟨0, 6⟩ ⟨2, 8⟩ ⟨0, 1⟩ [] [] [] 0 rfl (by decide)
  have h2 := claim_C4 fakeTurnMap ⟨0, 8⟩ ⟨0, 4⟩ ⟨0, 1⟩ [] [] [] 0 rfl (by decide)
  exact ⟨(h1.1 (by decide)).1, (h1.1 (by decide)).2.2.1,
    (h2.2 (by decide)).1, (h2.2 (by decide)).2.2.1⟩

/-! ### Claim C3 -/

theorem filterDirections_not_opposite {d dir : Direction}
    (h : dir ∈ filterDirections d) :
    dir.row ≠ -d.row ∨ dir.col ≠ -d.col := by
  unfold filterDirections at h
  rw [List.mem_filter] at h
  obtain ⟨hdir, hcond⟩ := h
  by_cases hd : d.row = 0
  · rw [if_pos hd] at hcond
    have : dir.row ≠ 0 := by simpa using hcond
    left
    omega
  · rw [if_neg hd] at hcond
    have : dir.row = 0 := by simpa using hcond
    left
    omega

theorem scanDirections_eq_find {grid : Grid} {p : Position} {d : Direction} :
    ∀ {l : List Direction},
    (∀ dir ∈ l, dir.row ≠ -d.row ∨ dir.col ≠ -d.col) →
    scanDirections grid p d l =
      (l.find? fun dir => isWithinBounds grid (move p dir) &&
        isWalkableCell (cellD grid (move p dir))).map
        fun dir => (move p dir, dir) := by
  intro l
  induction l with
  | nil => intro _; rfl
  | cons a l ih =>
    intro hno
    simp only [scanDirections]
    by_cases h1 : isWithinBounds grid (move p a) = true
    · rw [if_pos h1]
      by_cases h2 : isWalkableCell (cellD grid (move p a)) = true
      · rw [if_pos ⟨hno a (by simp), h2⟩,
          List.find?_cons_of_pos _ (by simp [h1]; exact h2)]
        rfl
      · rw [if_neg (fun hcon => by
            have : isWalkableCell (cellD grid (move p a)) = true := hcon.2
            rw [this] at h2; exact h2 rfl),
          List.find?_cons_of_neg _ (by simp [h1, h2])]
        exact ih fun dir hd => hno dir (by simp [hd])
    · rw [if_neg h1, List.find?_cons_of_neg _ (by simp [h1])]
      exact ih fun dir hd => hno dir (by simp [hd])

/-- Claim C3 (amended): at a cell containing an uppercase letter (which is
never a `+`), the resolver recovers by scanning the perpendicular
directions only when continuing straight runs OFF the grid, taking the
first in-bounds walkable perpendicular; when the forward cell is in bounds
but not walkable, the resolver returns `null` — the walk fails even if a
walkable perpendicular cell exists. -/
theorem claim_C3 (grid : Grid) (p : Position) (d : Direction) (c : String)
    (hc : cellAt grid p = some c) (hl : testUpper c = true) :
    (isWithinBounds grid (move p d) = false →
      findNextPosition grid p d = .ok
        (((filterDirections d).find? fun dir =>
          isWithinBounds grid (move p dir) &&
          isWalkableCell (cellD grid (move p dir))).map
          fun dir => (move p dir, dir))) ∧
    (isWithinBounds grid (move p d) = true →
      isWalkableCell (cellD grid (move p d)) = false →
      findNextPosition grid p d = .ok none) := by
  have hne : c ≠ CHANGE_DIRECTION_CHAR := by
    intro h
    rw [h] at hl
    exact absurd hl (by decide)
  have hfp := findNextPosition_not_turn (d := d) hc hne
  constructor
  · intro hoff
    rw [hfp]
    congr 1
    simp only [findNextStraight]
    rw [if_neg (by simp [hoff]), if_pos hl]
    exact scanDirections_eq_find fun dir hdir =>
      filterDirections_not_opposite hdir
  · intro hin hwalk
    rw [hfp]
    congr 1
    simp only [findNextStraight]
    rw [if_pos hin]
    by_cases hw : (isPathCharacter (cellD grid (move p d)) ||
        testUpperOrEnd (cellD grid (move p d))) = true
    · exact absurd (show isWalkableCell (cellD grid (move p d)) = true from hw)
        (by simp [hwalk])
    · rw [if_neg hw]

/-- The grid for the C3 counterexample: at the letter `A` the forward cell
is inside the grid but blank, while the perpendicular cell below holds a
walkable `|` leading to `x`. -/
def letterBlockedMap : Grid := [["@", "A", ""], ["", "|", ""], ["", "x", ""]]

/-- Claim C3 counterexample: at the letter `A` of `letterBlockedMap`,
continuing straight fails with the forward cell in bounds but not walkable,
a perpendicular candidate (down) is in bounds and walkable, yet the
resolver returns `null` and the walk fails as broken — the claimed
recovery does not happen for an in-bounds blocked forward cell. -/
theorem claim_C3_counterexample :
    testUpper (cellD letterBlockedMap ⟨0, 1⟩) = true ∧
    isWithinBounds letterBlockedMap (move ⟨0, 1⟩ ⟨0, 1⟩) = true ∧
    isWalkableCell (cellD letterBlockedMap (move ⟨0, 1⟩ ⟨0, 1⟩)) = false ∧
    (⟨1, 0⟩ : Direction) ∈ filterDirections ⟨0, 1⟩ ∧
    isWithinBounds letterBlockedMap (move ⟨0, 1⟩ ⟨1, 0⟩) = true ∧
    isWalkableCell (cellD letterBlockedMap (move ⟨0, 1⟩ ⟨1, 0⟩)) = true ∧
    findNextPosition letterBlockedMap ⟨0, 1⟩ ⟨0, 1⟩ = .ok none ∧
    collectLettersAndPath letterBlockedMap 10 = .raised .broken := by
  exact ⟨rfl, rfl, rfl, by decide, rfl, rfl, rfl, by decide⟩

/-- The grid for the C3 witness: at the letter `A` the forward cell is off
the grid and the perpendicular cell below is walkable. -/
def letterEdgeMap : Grid := [["@", "A"], ["", "|"], ["", "x"]]

/-- Witness for C3: when the straight continuation runs off the grid at a
letter, the first walkable perpendicular (down) is taken. -/
theorem claim_C3_witness :
    findNextPosition letterEdgeMap ⟨0, 1⟩ ⟨0, 1⟩ =
      .ok (some (⟨1, 1⟩, ⟨1, 0⟩)) := by
  rw [(claim_C3 letterEdgeMap ⟨0, 1⟩ ⟨0, 1⟩ "A" rfl (by decide)).1 (by decide)]
  rfl

/-! ### Claims C9 and C7 -/

theorem getLast?_decomp {α : Type} {l : List α} {a : α}
    (h : l.getLast? = some a) : ∃ t, l = t ++ [a] := by
  induction l with
  | nil => exact absurd h (by simp)
  | cons y ys ihy =>
    cases ys with
    | nil =>
      simp only [List.getLast?_singleton, Option.some.injEq] at h
      exact ⟨[], by simp [h]⟩
    | cons z zs =>
      rw [List.getLast?_cons_cons] at h
      obtain ⟨t', ht⟩ := ihy h
      exact ⟨y :: t', by simp [ht]⟩

/-- Decomposition of a successful `collectLettersAndPath` run into its
validation facts and the walk-loop run it performs. -/
theorem collect_ok_parts {grid : Grid} {n : Nat} {L P : String}
    (h : collectLettersAndPath grid n = .ok L P) :
    ∃ start endPos dir,
      findPosition grid STARTING_CHAR = some start ∧
      findPosition grid ENDING_CHAR = some endPos ∧
      hasMultipleOccurrences grid STARTING_CHAR = false ∧
      findInitialDirection grid start = .ok (some dir) ∧
      walkLoop grid endPos
        ⟨move start dir, dir, [STARTING_CHAR], [], []⟩ n = .ok L P := by
  unfold collectLettersAndPath at h
  cases hs : findPosition grid STARTING_CHAR with
  | none =>
    rw [hs] at h
    exact WalkOutcome.noConfusion h
  | some start =>
    cases he : findPosition grid ENDING_CHAR with
    | none =>
      rw [hs, he] at h
      exact WalkOutcome.noConfusion h
    | some endPos =>
      rw [hs, he] at h
      cases hm : hasMultipleOccurrences grid STARTING_CHAR with
      | true =>
        rw [hm] at h
        simp at h
      | false =>
        rw [hm] at h
        simp only [Bool.false_eq_true, if_false] at h
        cases hd : findInitialDirection grid start with
        | error f =>
          cases f with
          | raised er =>
            rw [hd] at h
            exact WalkOutcome.noConfusion h
          | absentRead =>
            rw [hd] at h
            exact WalkOutcome.noConfusion h
        | ok o =>
          cases o with
          | none =>
            rw [hd] at h
            exact WalkOutcome.noConfusion h
          | some dir =>
            rw [hd] at h
            exact ⟨start, endPos, dir, rfl, rfl, rfl, hd, h⟩

/-- Claim C9 (confirmed): on every successful walk the returned path string
is non-empty, starts with the start marker `@` and ends with the end
marker `x`. -/
theorem claim_C9 (grid : Grid) (n : Nat) (L P : String)
    (h : collectLettersAndPath grid n = .ok L P) :
    P ≠ "" ∧ P.data.head? = some '@' ∧ P.data.getLast? = some 'x' := by
  obtain ⟨start, endPos, dir, hs, he, hm, hd, hw⟩ := collect_ok_parts h
  obtain ⟨vs, hvne, hvhead, hvlast, hvmem, hL, hP⟩ := walkLoop_ok_spec hw
  have hex : cellD grid endPos = "x" :=
    cellD_of_cellAt (findPosition_cellAt he)
  obtain ⟨vs₀, rfl⟩ := getLast?_decomp hvlast
  simp only at hP
  rw [List.map_append, List.map_singleton, hex] at hP
  have hdata : P.data =
      '@' :: (((vs₀.map (cellD grid)).map String.data).flatten ++ ['x']) := by
    rw [hP, strJoin_data]
    simp [STARTING_CHAR]
  refine ⟨?_, ?_, ?_⟩
  · intro hP0
    rw [hP0] at hdata
    exact List.noConfusion hdata
  · rw [hdata]
    rfl
  · rw [hdata, ← List.cons_append, List.getLast?_concat]

/-- Witness for C9: the successful walk on `@-x`. -/
theorem claim_C9_witness :
    ("@-x" : String) ≠ "" ∧ ("@-x" : String).data.head? = some '@' ∧
      ("@-x" : String).data.getLast? = some 'x' :=
  claim_C9 [["@", "-", "x"]] 2 "" "@-x" (by decide)

/-- Claim C7 (confirmed): on every successful walk there is a visit
sequence `vs` such that every visit contributes its cell to `path`, while
`letters` consists of the cells of the positions collected by the
first-visit fold `collectedFrom`: that list is duplicate-free, is a
subsequence of the visits (first-visit order), contains exactly the visited
positions whose cell is an uppercase letter — keyed on position, not on the
letter character — and each such position, however often it is visited,
occurs in it exactly once. -/
theorem claim_C7 (grid : Grid) (n : Nat) (L P : String)
    (h : collectLettersAndPath grid n = .ok L P) :
    ∃ vs : List Position, vs ≠ [] ∧
      P = String.join (STARTING_CHAR :: vs.map (cellD grid)) ∧
      L = String.join ((collectedFrom grid [] vs).map (cellD grid)) ∧
      (collectedFrom grid [] vs).Nodup ∧
      (collectedFrom grid [] vs).Sublist vs ∧
      (∀ q, q ∈ collectedFrom grid [] vs ↔
        (q ∈ vs ∧ testUpper (cellD grid q) = true)) ∧
      (∀ q ∈ vs, testUpper (cellD grid q) = true →
        (collectedFrom grid [] vs).count q = 1) := by
  obtain ⟨start, endPos, dir, hs, he, hm, hd, hw⟩ := collect_ok_parts h
  obtain ⟨vs, hvne, hvhead, hvlast, hvmem, hL, hP⟩ := walkLoop_ok_spec hw
  simp only [List.nil_append] at hL
  refine ⟨vs, hvne, hP, hL, collectedFrom_nodup grid vs [],
    collectedFrom_sublist grid vs [], ?_, ?_⟩
  · intro q
    rw [collectedFrom_mem grid vs [] q]
    simp
  · intro q hq hup
    refine List.count_eq_one_of_mem (collectedFrom_nodup grid vs []) ?_
    rw [collectedFrom_mem grid vs [] q]
    simp [hq, hup]

/-- `keepDirectionEvenInCompactSpaceMap` from `src/maps.ts`: its walk
crosses the `B` and `A` letter cells twice each. -/
def keepDirectionEvenInCompactSpaceMap : Grid := [
  ["", "+", "-", "L", "-", "+"],
  ["", "|", "", "", "+", "A", "-", "+"],
  ["@", "B", "+", "", "+", "+", "", "H"],
  ["", "+", "+", "", "", "", "", "x"]]

/-- Witness for C7: the compact-space fixture revisits the `B` and `A`
cells; its letters come out deduplicated by position as `BLAH` while the
path records every visit. -/
theorem claim_C7_witness :
    ∃ vs : List Position, vs ≠ [] ∧
      "@B+++B|+-L-+A+++A-+Hx" = String.join (STARTING_CHAR ::
        vs.map (cellD keepDirectionEvenInCompactSpaceMap)) ∧
      "BLAH" = String.join ((collectedFrom keepDirectionEvenInCompactSpaceMap
        [] vs).map (cellD keepDirectionEvenInCompactSpaceMap)) ∧
      (collectedFrom keepDirectionEvenInCompactSpaceMap [] vs).Nodup ∧
      (collectedFrom keepDirectionEvenInCompactSpaceMap [] vs).Sublist vs ∧
      (∀ q, q ∈ collectedFrom keepDirectionEvenInCompactSpaceMap [] vs ↔
        (q ∈ vs ∧ testUpper (cellD keepDirectionEvenInCompactSpaceMap q) = true)) ∧
      (∀ q ∈ vs, testUpper (cellD keepDirectionEvenInCompactSpaceMap q) = true →
        (collectedFrom keepDirectionEvenInCompactSpaceMap [] vs).count q = 1) :=
  claim_C7 keepDirectionEvenInCompactSpaceMap 25 "BLAH" "@B+++B|+-L-+A+++A-+Hx"
    (by decide)

/-! ### Claim C10 -/

/-- Claim C10 (confirmed): the walk never performs an out-of-bounds cell
read: for every grid and fuel the outcome is never the `absentRead` marker
(the unguarded reads of the loop and the resolvers always hit a present
cell), and every read guarded by `isWithinBounds` is present by that guard. -/
theorem claim_C10 (grid : Grid) :
    (∀ n, collectLettersAndPath grid n ≠ .absentRead) ∧
    (∀ p, isWithinBounds grid p = true → (cellAt grid p).isSome = true) := by
  constructor
  · intro n h
    unfold collectLettersAndPath at h
    cases hs : findPosition grid STARTING_CHAR with
    | none =>
      rw [hs] at h
      exact WalkOutcome.noConfusion h
    | some start =>
      cases he : findPosition grid ENDING_CHAR with
      | none =>
        rw [hs, he] at h
        exact WalkOutcome.noConfusion h
      | some endPos =>
        rw [hs, he] at h
        cases hm : hasMultipleOccurrences grid STARTING_CHAR with
        | true =>
          rw [hm] at h
          simp at h
        | false =>
          rw [hm] at h
          simp only [Bool.false_eq_true, if_false] at h
          cases hd : findInitialDirection grid start with
          | error f =>
            cases f with
            | raised er =>
              rw [hd] at h
              exact WalkOutcome.noConfusion h
            | absentRead =>
              exact absurd (findInitialDirection_error hd) (by simp)
          | ok o =>
            cases o with
            | none =>
              rw [hd] at h
              exact WalkOutcome.noConfusion h
            | some dir =>
              rw [hd] at h
              exact walkLoop_not_absent (findInitialDirection_ok hd).2.1 h
  · intro p hp
    rw [cellAt_isSome]
    exact hp

/-- Witness for C10 on a concrete grid and cell. -/
theorem claim_C10_witness :
    collectLettersAndPath [["@", "-", "x"]] 5 ≠ .absentRead ∧
      (cellAt [["@", "-", "x"]] ⟨0, 2⟩).isSome = true :=
  ⟨(claim_C10 [["@", "-", "x"]]).1 5,
    (claim_C10 [["@", "-", "x"]]).2 ⟨0, 2⟩ (by decide)⟩

/-! ### Claim C2: control states of the walk loop -/

/-- The control step of the walk loop, as a function of the (position,
direction) pair alone: `none` when the loop stops during this visit (end
reached, an error thrown, or no next step), `some` of the next pair
otherwise.  The source loop's control flow depends only on this data — the
accumulators never influence it. -/
def ctrlStep (grid : Grid) (endPos : Position) :
    Position × Direction → Option (Position × Direction) := fun c =>
  if c.1.row = endPos.row ∧ c.1.col = endPos.col then none
  else
    match findNextPosition grid c.1 c.2 with
    | .ok (some s) => some s
    | _ => none

/-- Iterated control steps: the control state after `k` more visits, or
`none` if the loop stops within `k` visits. -/
def ctrlIter (grid : Grid) (endPos : Position)
    (c : Position × Direction) : Nat → Option (Position × Direction)
  | 0 => some c
  | k + 1 =>
    match ctrlStep grid endPos c with
    | none => none
    | some c' => ctrlIter grid endPos c' k

/-- If the walk loop is still running after `n` visits, the control
iteration survives `n` steps. -/
theorem walkLoop_timeout_ctrl {grid : Grid} {endPos : Position} :
    ∀ {n : Nat} {s : LoopState},
    walkLoop grid endPos s n = .timeout →
    ctrlIter grid endPos (s.pos, s.dir) n ≠ none := by
  intro n
  induction n with
  | zero =>
    intro s _ hc
    exact Option.noConfusion hc
  | succ n ih =>
    intro s h
    cases hc : cellAt grid s.pos with
    | none =>
      rw [walkLoop, hc] at h
      exact WalkOutcome.noConfusion h
    | some c =>
      rw [walkLoop_succ hc] at h
      by_cases hend : s.pos.row = endPos.row ∧ s.pos.col = endPos.col
      · rw [if_pos hend] at h
        exact WalkOutcome.noConfusion h
      · rw [if_neg hend] at h
        cases hfn : findNextPosition grid s.pos s.dir with
        | error f =>
          cases f with
          | raised er =>
            rw [hfn] at h
            exact WalkOutcome.noConfusion h
          | absentRead =>
            rw [hfn] at h
            exact WalkOutcome.noConfusion h
        | ok o =>
          cases o with
          | none =>
            rw [hfn] at h
            exact WalkOutcome.noConfusion h
          | some qd =>
            obtain ⟨q, d'⟩ := qd
            rw [hfn] at h
            have hstep : ctrlStep grid endPos (s.pos, s.dir) = some (q, d') := by
              unfold ctrlStep
              rw [if_neg hend, hfn]
            rw [ctrlIter, hstep]
            exact ih h

theorem filterDirections_subset {d dir : Direction}
    (h : dir ∈ filterDirections d) : dir ∈ DIRECTIONS :=
  (List.mem_filter.mp h).1

/-- The control-step invariant: positions stay in bounds and directions
stay cardinal. -/
theorem ctrlStep_invariant {grid : Grid} {endPos : Position}
    {c c' : Position × Direction}
    (h : ctrlStep grid endPos c = some c') (hd : c.2 ∈ DIRECTIONS) :
    isWithinBounds grid c'.1 = true ∧ c'.2 ∈ DIRECTIONS := by
  unfold ctrlStep at h
  split at h
  · exact Option.noConfusion h
  · cases hfn : findNextPosition grid c.1 c.2 with
    | error f =>
      rw [hfn] at h
      cases f with
      | raised er => exact Option.noConfusion h
      | absentRead => exact Option.noConfusion h
    | ok o =>
      cases o with
      | none =>
        rw [hfn] at h
        exact Option.noConfusion h
      | some qd =>
        rw [hfn] at h
        injection h with h
        subst h
        obtain ⟨hb, hdisj⟩ := findNextPosition_ok_some hfn
        refine ⟨hb, ?_⟩
        rcases hdisj with h | h
        · rw [h]; exact hd
        · exact filterDirections_subset h

theorem ctrlIter_invariant {grid : Grid} {endPos : Position} :
    ∀ {k : Nat} {c0 c : Position × Direction},
    isWithinBounds grid c0.1 = true → c0.2 ∈ DIRECTIONS →
    ctrlIter grid endPos c0 k = some c →
    isWithinBounds grid c.1 = true ∧ c.2 ∈ DIRECTIONS := by
  intro k
  induction k with
  | zero =>
    intro c0 c h1 h2 h
    injection h with h
    subst h
    exact ⟨h1, h2⟩
  | succ k ih =>
    intro c0 c h1 h2 h
    rw [ctrlIter] at h
    cases hstep : ctrlStep grid endPos c0 with
    | none =>
      rw [hstep] at h
      exact Option.noConfusion h
    | some c1 =>
      rw [hstep] at h
      obtain ⟨hb1, hd1⟩ := ctrlStep_invariant hstep h2
      exact ih hb1 hd1 h

/-- The maximal row length of a grid:, every in-bounds column index is
below it. -/
def maxRowLen (grid : Grid) : Nat :=
  (grid.map List.length).foldr max 0

theorem getD_length_le_maxRowLen (grid : Grid) :
    ∀ r, r < grid.length → (grid.getD r []).length ≤ maxRowLen grid := by
  induction grid with
  | nil =>
    intro r h
    simp at h
  | cons row rest ih =>
    intro r h
    cases r with
    | zero =>
      show row.length ≤ max row.length (maxRowLen rest)
      exact le_max_left _ _
    | succ r =>
      have : (rest.getD r []).length ≤ maxRowLen rest :=
        ih r (by simpa using h)
      calc ((row :: rest).getD (r + 1) []).length
          = (rest.getD r []).length := by simp [List.getD]
        _ ≤ maxRowLen rest := this
        _ ≤ max row.length (maxRowLen rest) := le_max_right _ _

/-- The finite set of possible control states of a walk on `grid`: an
in-bounds position (row below the row count, column below the maximal row
length) paired with one of the four directions. -/
def ctrlFinset (grid : Grid) : Finset (Position × Direction) :=
  ((Finset.range grid.length ×ˢ Finset.range (maxRowLen grid)).image
    fun rc => (⟨(rc.1 : Int), (rc.2 : Int)⟩ : Position)) ×ˢ
    DIRECTIONS.toFinset

theorem ctrlFinset_card_le (grid : Grid) :
    (ctrlFinset grid).card ≤ grid.length * maxRowLen grid * 4 := by
  unfold ctrlFinset
  rw [Finset.card_product]
  have h1 : ((Finset.range grid.length ×ˢ Finset.range (maxRowLen grid)).image
      fun rc => (⟨(rc.1 : Int), (rc.2 : Int)⟩ : Position)).card ≤
      grid.length * maxRowLen grid := by
    calc _ ≤ (Finset.range grid.length ×ˢ Finset.range (maxRowLen grid)).card :=
          Finset.card_image_le
      _ = grid.length * maxRowLen grid := by
          rw [Finset.card_product, Finset.card_range, Finset.card_range]
  have h2 : (DIRECTIONS.toFinset : Finset Direction).card ≤ 4 := by
    calc DIRECTIONS.toFinset.card ≤ DIRECTIONS.length := DIRECTIONS.toFinset_card_le
      _ = 4 := rfl
  calc _ ≤ (grid.length * maxRowLen grid) * DIRECTIONS.toFinset.card :=
        Nat.mul_le_mul_right _ h1
    _ ≤ (grid.length * maxRowLen grid) * 4 := Nat.mul_le_mul_left _ h2

theorem mem_ctrlFinset {grid : Grid} {c : Position × Direction}
    (hb : isWithinBounds grid c.1 = true) (hd : c.2 ∈ DIRECTIONS) :
    c ∈ ctrlFinset grid := by
  unfold ctrlFinset
  rw [Finset.mem_product]
  refine ⟨?_, by simpa using hd⟩
  rw [Finset.mem_image]
  unfold isWithinBounds at hb
  simp only [Bool.and_eq_true, decide_eq_true_eq] at hb
  obtain ⟨⟨⟨h1, h2⟩, h3⟩, h4⟩ := hb
  refine ⟨(c.1.row.toNat, c.1.col.toNat), ?_, ?_⟩
  · rw [Finset.mem_product, Finset.mem_range, Finset.mem_range]
    have hrow : c.1.row.toNat < grid.length := by omega
    have hcl : (grid.getD c.1.row.toNat []).length ≤ maxRowLen grid :=
      getD_length_le_maxRowLen grid _ hrow
    exact ⟨hrow, by omega⟩
  · show (⟨(c.1.row.toNat : Int), (c.1.col.toNat : Int)⟩ : Position) = c.1
    exact position_eq (by simp only; omega) (by simp only; omega)

/-- Claim C2 (amended): for every grid, either some fuel suffices — the
source's unbounded loop terminates with a result or one of the fixed
errors — or the walk revisits a (position, direction) control state, in
which case the deterministic loop cycles; termination for *every* grid
fails (see the counterexample, a closed rectangular path, on which the loop
runs forever). -/
theorem claim_C2 (grid : Grid) :
    (∃ n, collectLettersAndPath grid n ≠ .timeout) ∨
    (∃ endPos start dir i j c,
      findPosition grid STARTING_CHAR = some start ∧
      findPosition grid ENDING_CHAR = some endPos ∧
      findInitialDirection grid start = .ok (some dir) ∧
      i < j ∧
      ctrlIter grid endPos (move start dir, dir) i = some c ∧
      ctrlIter grid endPos (move start dir, dir) j = some c) := by
  cases hs : findPosition grid STARTING_CHAR with
  | none =>
    left
    refine ⟨0, ?_⟩
    unfold collectLettersAndPath
    rw [hs]
    cases findPosition grid ENDING_CHAR <;> simp
  | some start =>
    cases he : findPosition grid ENDING_CHAR with
    | none =>
      left
      refine ⟨0, ?_⟩
      unfold collectLettersAndPath
      rw [hs, he]
      simp
    | some endPos =>
      cases hm : hasMultipleOccurrences grid STARTING_CHAR with
      | true =>
        left
        refine ⟨0, ?_⟩
        unfold collectLettersAndPath
        rw [hs, he, hm]
        simp
      | false =>
        cases hd : findInitialDirection grid start with
        | error f =>
          left
          refine ⟨0, ?_⟩
          unfold collectLettersAndPath
          rw [hs, he, hm]
          rw [findInitialDirection_error hd] at hd
          simp [hd]
        | ok o =>
          cases o with
          | none =>
            left
            refine ⟨0, ?_⟩
            unfold collectLettersAndPath
            rw [hs, he, hm]
            simp [hd]
          | some dir =>
            by_cases hnone : ∃ k,
              ctrlIter grid endPos (move start dir, dir) k = none
            · left
              obtain ⟨k, hk⟩ := hnone
              refine ⟨k, fun ht => ?_⟩
              rw [collect_eq_walkLoop hs he hm hd] at ht
              exact walkLoop_timeout_ctrl ht hk
            · right
              push_neg at hnone
              have hb0 : isWithinBounds grid (move start dir) = true :=
                (findInitialDirection_ok hd).2.1
              have hd0 : dir ∈ DIRECTIONS := (findInitialDirection_ok hd).1
              have hsome : ∀ k,
                  (ctrlIter grid endPos (move start dir, dir) k).isSome :=
                fun k => Option.ne_none_iff_isSome.mp (hnone k)
              have hmaps : ∀ k ∈ Finset.range
                    (grid.length * maxRowLen grid * 4 + 1),
                  (ctrlIter grid endPos (move start dir, dir) k).get
                    (hsome k) ∈ ctrlFinset grid := by
                intro k _
                have hiter : ctrlIter grid endPos (move start dir, dir) k =
                    some ((ctrlIter grid endPos (move start dir, dir) k).get
                      (hsome k)) := (Option.some_get (hsome k)).symm
                obtain ⟨hb, hdm⟩ := ctrlIter_invariant hb0 hd0 hiter
                exact mem_ctrlFinset hb hdm
              have hcard : (ctrlFinset grid).card < (Finset.range
                  (grid.length * maxRowLen grid * 4 + 1)).card := by
                rw [Finset.card_range]
                have := ctrlFinset_card_le grid
                omega
              obtain ⟨i, hi, j, hj, hij, hfeq⟩ :=
                Finset.exists_ne_map_eq_of_card_lt_of_maps_to hcard hmaps
              rcases Nat.lt_or_ge i j with hlt | hge
              · refine ⟨endPos, start, dir, i, j,
                  (ctrlIter grid endPos (move start dir, dir) i).get (hsome i),
                  rfl, rfl, hd, hlt, (Option.some_get (hsome i)).symm, ?_⟩
                rw [hfeq]
                exact (Option.some_get (hsome j)).symm
              · have hlt : j < i := by omega
                refine ⟨endPos, start, dir, j, i,
                  (ctrlIter grid endPos (move start dir, dir) j).get (hsome j),
                  rfl, rfl, hd, hlt, (Option.some_get (hsome j)).symm, ?_⟩
                rw [← hfeq]
                exact (Option.some_get (hsome i)).symm

/-- A grid whose path feeds into a closed rectangular loop of `+` corners;
the end marker `x` exists but is unreachable, and the walk cycles forever. -/
def loopGrid : Grid := [
  ["@", "", "", "", "x"],
  ["|"],
  ["+", "-", "+"],
  ["|", "", "|"],
  ["+", "-", "+"]]

/-- The ten control states of the cycle the walk enters on `loopGrid`. -/
def loopCycle : List (Position × Direction) :=
  [(⟨1, 0⟩, ⟨1, 0⟩), (⟨2, 0⟩, ⟨1, 0⟩), (⟨2, 1⟩, ⟨0, 1⟩), (⟨2, 2⟩, ⟨0, 1⟩),
   (⟨3, 2⟩, ⟨1, 0⟩), (⟨4, 2⟩, ⟨1, 0⟩), (⟨4, 1⟩, ⟨0, -1⟩), (⟨4, 0⟩, ⟨0, -1⟩),
   (⟨3, 0⟩, ⟨-1, 0⟩), (⟨2, 0⟩, ⟨-1, 0⟩)]

theorem loopStep1 (path letters : List String) (loc : List Position)
    (n : Nat) :
    walkLoop loopGrid ⟨0, 4⟩
      ⟨⟨1, 0⟩, ⟨1, 0⟩, path, letters, loc⟩ (n + 1) =
    walkLoop loopGrid ⟨0, 4⟩
      ⟨⟨2, 0⟩, ⟨1, 0⟩, path ++ ["|"], letters, loc⟩ n := rfl
theorem loopStep2 (path letters : List String) (loc : List Position)
    (n : Nat) :
    walkLoop loopGrid ⟨0, 4⟩
      ⟨⟨2, 0⟩, ⟨1, 0⟩, path, letters, loc⟩ (n + 1) =
    walkLoop loopGrid ⟨0, 4⟩
      ⟨⟨2, 1⟩, ⟨0, 1⟩, path ++ ["+"], letters, loc⟩ n := rfl
theorem loopStep3 (path letters : List String) (loc : List Position)
    (n : Nat) :
    walkLoop loopGrid ⟨0, 4⟩
      ⟨⟨2, 1⟩, ⟨0, 1⟩, path, letters, loc⟩ (n + 1) =
    walkLoop loopGrid ⟨0, 4⟩
      ⟨⟨2, 2⟩, ⟨0, 1⟩, path ++ ["-"], letters, loc⟩ n := rfl
theorem loopStep4 (path letters : List String) (loc : List Position)
    (n : Nat) :
    walkLoop loopGrid ⟨0, 4⟩
      ⟨⟨2, 2⟩, ⟨0, 1⟩, path, letters, loc⟩ (n + 1) =
    walkLoop loopGrid ⟨0, 4⟩
      ⟨⟨3, 2⟩, ⟨1, 0⟩, path ++ ["+"], letters, loc⟩ n := rfl
theorem loopStep5 (path letters : List String) (loc : List Position)
    (n : Nat) :
    walkLoop loopGrid ⟨0, 4⟩
      ⟨⟨3, 2⟩, ⟨1, 0⟩, path, letters, loc⟩ (n + 1) =
    walkLoop loopGrid ⟨0, 4⟩
      ⟨⟨4, 2⟩, ⟨1, 0⟩, path ++ ["|"], letters, loc⟩ n := rfl
theorem loopStep6 (path letters : List String) (loc : List Position)
    (n : Nat) :
    walkLoop loopGrid ⟨0, 4⟩
      ⟨⟨4, 2⟩, ⟨1, 0⟩, path, letters, loc⟩ (n + 1) =
    walkLoop loopGrid ⟨0, 4⟩
      ⟨⟨4, 1⟩, ⟨0, -1⟩, path ++ ["+"], letters, loc⟩ n := rfl
theorem loopStep7 (path letters : List String) (loc : List Position)
    (n : Nat) :
    walkLoop loopGrid ⟨0, 4⟩
      ⟨⟨4, 1⟩, ⟨0, -1⟩, path, letters, loc⟩ (n + 1) =
    walkLoop loopGrid ⟨0, 4⟩
      ⟨⟨4, 0⟩, ⟨0, -1⟩, path ++ ["-"], letters, loc⟩ n := rfl
theorem loopStep8 (path letters : List String) (loc : List Position)
    (n : Nat) :
    walkLoop loopGrid ⟨0, 4⟩
      ⟨⟨4, 0⟩, ⟨0, -1⟩, path, letters, loc⟩ (n + 1) =
    walkLoop loopGrid ⟨0, 4⟩
      ⟨⟨3, 0⟩, ⟨-1, 0⟩, path ++ ["+"], letters, loc⟩ n := rfl
theorem loopStep9 (path letters : List String) (loc : List Position)
    (n : Nat) :
    walkLoop loopGrid ⟨0, 4⟩
      ⟨⟨3, 0⟩, ⟨-1, 0⟩, path, letters, loc⟩ (n + 1) =
    walkLoop loopGrid ⟨0, 4⟩
      ⟨⟨2, 0⟩, ⟨-1, 0⟩, path ++ ["|"], letters, loc⟩ n := rfl
theorem loopStep10 (path letters : List String) (loc : List Position)
    (n : Nat) :
    walkLoop loopGrid ⟨0, 4⟩
      ⟨⟨2, 0⟩, ⟨-1, 0⟩, path, letters, loc⟩ (n + 1) =
    walkLoop loopGrid ⟨0, 4⟩
      ⟨⟨2, 1⟩, ⟨0, 1⟩, path ++ ["+"], letters, loc⟩ n := rfl

theorem loopGrid_cycle :
    ∀ (n : Nat) (s : LoopState), (s.pos, s.dir) ∈ loopCycle →
    walkLoop loopGrid ⟨0, 4⟩ s n = .timeout := by
  intro n
  induction n with
  | zero =>
    intro s _
    rfl
  | succ n ih =>
    intro s hs
    obtain ⟨p, d, path, letters, loc⟩ := s
    simp only [loopCycle, List.mem_cons, List.not_mem_nil, or_false,
      Prod.mk.injEq] at hs
    rcases hs with h10 | h10 | h10 | h10 | h10 | h10 | h10 | h10 | h10 | h10 <;>
      obtain ⟨rfl, rfl⟩ := h10
    · rw [loopStep1]
      exact ih _ (show ((⟨2, 0⟩ : Position), (⟨1, 0⟩ : Direction)) ∈
        loopCycle from by decide)
    · rw [loopStep2]
      exact ih _ (show ((⟨2, 1⟩ : Position), (⟨0, 1⟩ : Direction)) ∈
        loopCycle from by decide)
    · rw [loopStep3]
      exact ih _ (show ((⟨2, 2⟩ : Position), (⟨0, 1⟩ : Direction)) ∈
        loopCycle from by decide)
    · rw [loopStep4]
      exact ih _ (show ((⟨3, 2⟩ : Position), (⟨1, 0⟩ : Direction)) ∈
        loopCycle from by decide)
    · rw [loopStep5]
      exact ih _ (show ((⟨4, 2⟩ : Position), (⟨1, 0⟩ : Direction)) ∈
        loopCycle from by decide)
    · rw [loopStep6]
      exact ih _ (show ((⟨4, 1⟩ : Position), (⟨0, -1⟩ : Direction)) ∈
        loopCycle from by decide)
    · rw [loopStep7]
      exact ih _ (show ((⟨4, 0⟩ : Position), (⟨0, -1⟩ : Direction)) ∈
        loopCycle from by decide)
    · rw [loopStep8]
      exact ih _ (show ((⟨3, 0⟩ : Position), (⟨-1, 0⟩ : Direction)) ∈
        loopCycle from by decide)
    · rw [loopStep9]
      exact ih _ (show ((⟨2, 0⟩ : Position), (⟨-1, 0⟩ : Direction)) ∈
        loopCycle from by decide)
    · rw [loopStep10]
      exact ih _ (show ((⟨2, 1⟩ : Position), (⟨0, 1⟩ : Direction)) ∈
        loopCycle from by decide)

theorem loopGrid_timeout (n : Nat) :
    collectLettersAndPath loopGrid n = .timeout := by
  have h := collect_eq_walkLoop (n := n)
    (show findPosition loopGrid STARTING_CHAR = some ⟨0, 0⟩ from rfl)
    (show findPosition loopGrid ENDING_CHAR = some ⟨0, 4⟩ from rfl)
    (show hasMultipleOccurrences loopGrid STARTING_CHAR = false from rfl)
    (show findInitialDirection loopGrid ⟨0, 0⟩ = .ok (some ⟨1, 0⟩) from rfl)
  rw [h]
  exact loopGrid_cycle n _ (show ((⟨1, 0⟩ : Position), (⟨1, 0⟩ : Direction)) ∈
    loopCycle from by decide)

/-- Claim C2 counterexample: on `loopGrid` — a valid-looking map whose path
closes into a rectangle of `+` corners with the end marker unreachable —
`collectLettersAndPath` never returns for any fuel: the source
`while (true)` loop runs forever. -/
theorem claim_C2_counterexample :
    ¬ ∃ n, collectLettersAndPath loopGrid n ≠ .timeout := by
  rintro ⟨n, hn⟩
  exact hn (loopGrid_timeout n)

end AsciiMap
